import Mathlib

/-!
Verification of the emu2mqtt stream pipeline (src/main.go).

The development shallowly embeds the core of `scanSerial`:
  * the `bufio.Scanner` split closure that frames the serial byte
    stream on three closing markers (bytes are modelled as `Char`,
    the stream is ASCII XML text);
  * the per-record decode step: `xml.Unmarshal` into a persistent
    record struct, `validator.v10` required/hexadecimal validation,
    `strconv.ParseInt(_, 0, 64)` field parsing, 32-bit truncation,
    scaling, and the publish calls.

Go float64 arithmetic in the conversion is modelled by exact integer
arithmetic: `int(x)` on a float is truncation toward zero, modelled by
`Int.tdiv`; `%.3f` formatting rounds to the nearest thousandth with
ties to even, as `fmt` does.  The exact model agrees with the program
whenever the float64 evaluation of the conversion expression is exact,
and can differ where float64 rounds (the value then lands within one
unit of the last place of the exact one); theorems about the
conversion therefore either carry hypotheses confining them to
exactly-representable inputs or evaluate concrete instances at which
the float computation is exact.  The divisor-zero paths, where Go
produces Inf/NaN, are modelled explicitly and separately.
-/

namespace Emu2Mqtt

/-- The closing marker of an instantaneous-demand record, 24 bytes,
first pattern searched by the split closure in `scanSerial`. -/
def mID : List Char := "</InstantaneousDemand>\r\n".toList

/-- The closing marker of a summation record, 30 bytes, second
pattern searched by the split closure in `scanSerial`. -/
def mCSD : List Char := "</CurrentSummationDelivered>\r\n".toList

/-- The closing marker of a time-cluster record, 16 bytes, third
pattern searched by the split closure in `scanSerial`. -/
def mTC : List Char := "</TimeCluster>\r\n".toList

/-- The three closing markers, in the order the split closure tries
them. -/
def markers : List (List Char) := [mID, mCSD, mTC]

/-- Index of the first occurrence of `p` in `d`, or `none`; embeds
`strings.Index` from the split closure. -/
def firstIdx (p : List Char) : List Char → Option Nat
  | [] => if p.isPrefixOf [] then some 0 else none
  | c :: t => if p.isPrefixOf (c :: t) then some 0 else (firstIdx p t).map (· + 1)

/-- `p` occurs in `d` at byte offset `i`. -/
def occursAt (p d : List Char) (i : Nat) : Prop := p <+: d.drop i

instance (p d : List Char) (i : Nat) : Decidable (occursAt p d i) := by
  unfold occursAt; infer_instance

/-- The split closure registered on the `bufio.Scanner` in
`scanSerial`: try `strings.Index` for the three closing markers in
order (instantaneous demand, then summation, then time cluster); on
the first hit at offset `i` the token is the buffer through the end
of that marker and the rest of the buffer remains; otherwise no
token (request more bytes). -/
def splitFrame (d : List Char) : Option (List Char × List Char) :=
  match firstIdx mID d with
  | some i => some (d.take (i + 24), d.drop (i + 24))
  | none =>
    match firstIdx mCSD d with
    | some i => some (d.take (i + 30), d.drop (i + 30))
    | none =>
      match firstIdx mTC d with
      | some i => some (d.take (i + 16), d.drop (i + 16))
      | none => none

/-- Modelled from the spec: the FrameScanner contract as the spec
words it, for comparison with `splitFrame` — scan for the earliest
occurrence, by byte offset, of ANY of the three closing markers and
emit the buffer through the end of that earliest marker. -/
def splitFrameSpec (d : List Char) : Option (List Char × List Char) :=
  let cands := [(firstIdx mID d, 24), (firstIdx mCSD d, 30), (firstIdx mTC d, 16)]
  let best := cands.foldl
    (fun best c =>
      match c.1 with
      | none => best
      | some i =>
        match best with
        | none => some (i, c.2)
        | some (j, l) => if i < j then some (i, c.2) else some (j, l))
    none
  match best with
  | none => none
  | some (i, len) => some (d.take (i + len), d.drop (i + len))

/-- Repeatedly extract tokens from the buffer with `splitFrame`;
`fuel` bounds the recursion (each extraction strictly shrinks the
buffer, so `fuel = buffer length` is always enough).  Models the
sequence of `Scan` calls that succeed without a further read. -/
def drainFuel : Nat → List Char → List (List Char) × List Char
  | 0, d => ([], d)
  | fuel + 1, d =>
    match splitFrame d with
    | none => ([], d)
    | some (t, r) =>
      let res := drainFuel fuel r
      (t :: res.1, res.2)

/-- Extract all currently complete frames from the buffer. -/
def drain (d : List Char) : List (List Char) × List Char := drainFuel d.length d

/-- The scanner loop over a chunked input stream: append the next
read chunk to the carried buffer, emit every complete frame, carry
the remainder.  Data left in the buffer at end of stream is dropped
(with this split function `bufio.Scanner` discards a trailing
trailing incomplete token at EOF). -/
def scanGo (buffer : List Char) : List (List Char) → List (List Char)
  | [] => []
  | c :: cs =>
    let res := drain (buffer ++ c)
    res.1 ++ scanGo res.2 cs

/-- All frames emitted by the scanner for the given sequence of
stream reads. -/
def runScanner (chunks : List (List Char)) : List (List Char) := scanGo [] chunks

/-! ## Field parsing: strconv.ParseInt(s, 0, 64)

The record fields are parsed with `strconv.ParseInt(field, 0, 64)`.
Base 0 means the base is taken from the prefix of the text: `0x`/`0X`
is hexadecimal, `0b`/`0B` binary, `0o`/`0O` octal, a bare leading `0`
octal, anything else decimal.  The following definitions embed the Go
standard library behaviour (strconv/atoi.go) for base 0 and bit size
64; every error return (syntax or range) is collapsed to `none`,
which `scanSerial` treats as fatal. -/

/-- Go `lower(c) = c | ('x'-'X')`: ASCII lower-casing of a byte by
setting bit 5 (Go manipulates bytes; here the byte value of a
character). -/
def lowerByte (c : Char) : Nat := c.toNat ||| 32

/-- Digit value of a character as in the ParseUint loop: `0`-`9`,
then letters `a`-`z` (after lower-casing) as 10..35.  The byte
comparisons of the Go loop are the numeric comparisons here
(`'0' = 48`, `'9' = 57`, `'a' = 97`, `'z' = 122`). -/
def digitVal (c : Char) : Option Nat :=
  if 48 ≤ c.toNat ∧ c.toNat ≤ 57 then some (c.toNat - 48)
  else if 97 ≤ lowerByte c ∧ lowerByte c ≤ 122 then some (lowerByte c - 97 + 10)
  else none

/-- The digit loop of ParseUint: accumulate `acc*base + d`, failing on
a character that is not a digit of the base. -/
def digitsValue (base : Nat) : Nat → List Char → Option Nat
  | acc, [] => some acc
  | acc, c :: t =>
    match digitVal c with
    | none => none
    | some d => if d < base then digitsValue base (acc * base + d) t else none

/-- The state machine of Go `underscoreOK` over the number body:
`saw` is the class of the previous character (start of number, digit
or base prefix, underscore, or other). -/
def underscoreLoop (saw : Char) (hex : Bool) : List Char → Bool
  | [] => saw ≠ '_'
  | c :: t =>
    if (48 ≤ c.toNat ∧ c.toNat ≤ 57) ∨ (hex ∧ 97 ≤ lowerByte c ∧ lowerByte c ≤ 102) then
      underscoreLoop '0' hex t
    else if c = '_' then
      (if saw ≠ '0' then false else underscoreLoop '_' hex t)
    else if saw = '_' then false
    else underscoreLoop '!' hex t

/-- Go `strconv.underscoreOK`: underscores may appear only between a
base prefix (or digit) and a digit. -/
def underscoreOK (s : List Char) : Bool :=
  let s1 := match s with
    | c :: t => if c = '-' ∨ c = '+' then t else c :: t
    | [] => []
  match s1 with
  | '0' :: c :: t =>
    if c = 'b' ∨ c = 'B' ∨ c = 'o' ∨ c = 'O' ∨ c = 'x' ∨ c = 'X' then
      underscoreLoop '0' (c = 'x' ∨ c = 'X') t
    else underscoreLoop '^' false ('0' :: c :: t)
  | _ => underscoreLoop '^' false s1

/-- Go `strconv.ParseUint(s, 0, 64)`: detect the base from the
prefix, check underscore placement, run the digit loop, and fail when
the value exceeds the 64-bit range.  `none` covers every error
return. -/
def parseUint0 (s : List Char) : Option Nat :=
  if s = [] then none
  else
    let bd : Nat × List Char :=
      match s with
      | c0 :: c1 :: rest =>
        if c0 = '0' then
          if (c1 = 'b' ∨ c1 = 'B') ∧ rest ≠ [] then (2, rest)
          else if (c1 = 'o' ∨ c1 = 'O') ∧ rest ≠ [] then (8, rest)
          else if (c1 = 'x' ∨ c1 = 'X') ∧ rest ≠ [] then (16, rest)
          else (8, c1 :: rest)
        else (10, s)
      | [c0] => if c0 = '0' then (8, []) else (10, s)
      | [] => (10, s)
    if bd.2.any (fun c => c = '_') ∧ ¬ underscoreOK s then none
    else
      match digitsValue bd.1 0 (bd.2.filter (fun c => c ≠ '_')) with
      | none => none
      | some v => if v < 2 ^ 64 then some v else none

/-- Go `strconv.ParseInt(s, 0, 64)`: optional sign, then ParseUint on
the rest, then the signed 64-bit range check.  `none` covers every
error return (the callers in `scanSerial` treat it as fatal). -/
def parseInt0 (s : String) : Option Int :=
  match s.toList with
  | [] => none
  | c :: rest =>
    let neg := c = '-'
    let body := if c = '+' ∨ c = '-' then rest else c :: rest
    match parseUint0 body with
    | none => none
    | some un =>
      if ¬ neg ∧ 2 ^ 63 ≤ un then none
      else if neg ∧ 2 ^ 63 < un then none
      else some (if neg then -(un : Int) else (un : Int))

/-! ## Validation: validator.v10 `required,hexadecimal` -/

/-- A character of the regex class `[0-9a-fA-F]` (byte values
48-57, 97-102, 65-70). -/
def isHexDigit (c : Char) : Bool :=
  (48 ≤ c.toNat ∧ c.toNat ≤ 57) ∨ (97 ≤ c.toNat ∧ c.toNat ≤ 102) ∨
    (65 ≤ c.toNat ∧ c.toNat ≤ 70)

/-- The `hexadecimal` check of validator.v10: the text must match
`^(0[xX])?[0-9a-fA-F]+$` — an optional `0x`/`0X` prefix followed by
at least one hexadecimal digit. -/
def hexadecimalOK (s : String) : Bool :=
  let l := s.toList
  (decide (l ≠ []) && l.all isHexDigit) ||
    (match l with
     | c0 :: x :: rest =>
       decide (c0 = '0') && (decide (x = 'x') || decide (x = 'X')) &&
         decide (rest ≠ []) && rest.all isHexDigit
     | _ => false)

/-- The `required` check of validator.v10 on a string field: the
string is not empty. -/
def requiredOK (s : String) : Bool := s != ""

/-! ## Unit conversion

`scanSerial` computes
  `int(float64(int32(i)) * float64(mult) / float64(div) * 1000)`
for power and
  `fmt.Sprintf("%.3f", float64(int32(v)) * float64(mult) / float64(div))`
for energy.  The float64 arithmetic is modelled exactly: the value of
the expression is the rational `int32(i)*mult*1000/div`, `int(x)`
truncates toward zero (`Int.tdiv`), and `%.3f` rounds to the nearest
thousandth with ties to even, as `fmt` renders a float.  The exact
model coincides with the program whenever the float64 evaluation of
the expression is exact — in particular whenever the divisor is a
power of two and `|int32(i)*mult| * 1000 < 2^53`, so that every
intermediate value is an integer or dyadic rational within the 53-bit
significand — and can differ by float64 rounding outside that range;
theorems below restrict themselves accordingly.  The model does not
reproduce the `-0.000` rendering of an IEEE negative zero (reachable
only with a zero factor times a negative one).  The divisor-zero
paths are carved out before these operations are used. -/

/-- Go `int32(i)` on an int64 value: keep the low 32 bits and
sign-extend (twos-complement). -/
def toInt32 (i : Int) : Int :=
  let m := i.emod 4294967296
  if m < 2147483648 then m else m - 4294967296

/-- The published power value for a validated instantaneous-demand
record with nonzero divisor: truncation toward zero of the exact
value of `int32(i) * mult / div * 1000`.  This equals what the
program computes exactly when the float64 evaluation is exact (see
the section comment); where float64 rounds, the published integer can
differ from this exact value. -/
def powerWatts (i mult div : Int) : Int := (toInt32 i * mult * 1000).tdiv div

/-- Modelled from the spec: the power formula as the spec words it,
`round(demand_i32 * multiplier / divisor * 1000)`, for comparison
with `powerWatts`.  Rounding to the nearest integer, half up. -/
def powerRoundSpec (i mult div : Int) : Int :=
  (2 * (toInt32 i * mult * 1000) + div).ediv (2 * div)

/-- Round `n / d` (for `d > 0`) to the nearest integer with ties to
even, the rounding `fmt` applies to the decimal expansion of a
float64 value. -/
def roundHalfEvenDiv (n d : Nat) : Nat :=
  let q := n / d
  let r := n % d
  if 2 * r < d then q
  else if d < 2 * r then q + 1
  else if q % 2 = 0 then q else q + 1

/-- Decimal rendering of the fraction `n / d` (for `d > 0`) with
exactly three fraction digits, as `%.3f` produces on the exactly
represented value: sign, integer part, `.`, zero-padded thousandths
of the half-even-rounded magnitude. -/
def format3 (n d : Int) : String :=
  let neg := n < 0
  let a := n.natAbs
  let dn := d.natAbs
  let milli := roundHalfEvenDiv (a * 1000) dn
  let ip := milli / 1000
  let fp := milli % 1000
  (if neg then "-" else "") ++ toString ip ++ "." ++
    (if fp < 10 then "00" else if fp < 100 then "0" else "") ++ toString fp

/-- One published energy string: for divisor zero Go divides by the
float zero, giving `+Inf` for a positive numerator, `-Inf` for a
negative one and `NaN` for zero over zero, which `%.3f` renders
verbatim (float multiplication preserves the sign and zeroness of the
numerator exactly, so this branch is float-faithful); otherwise the
scaled value rendered with three fraction digits (exact-value model,
see the section comment). -/
def energyString (v mult div : Int) : String :=
  if div = 0 then
    (if 0 < toInt32 v * mult then "+Inf"
     else if toInt32 v * mult < 0 then "-Inf"
     else "NaN")
  else format3 (toInt32 v * mult) div

/-! ## Records and the decode loop

`scanSerial` declares one `InstantaneousDemand` and one
`CurrentSummationDelivered` variable before the loop and reuses them
for every frame.  `encoding/xml.Unmarshal` assigns only the struct
fields whose element is present in the document and leaves the other
fields at their previous values, so residual data survives from
earlier frames of the same kind.  A frame is modelled at this level
by its discriminant byte `scanner.Text()[1]` and the association list
of XML element names to their text content. -/

/-- The `InstantaneousDemand` struct of main.go (string fields;
`Demand`, `Multiplier`, `Divisor` carry `validate:"required,hexadecimal"`). -/
structure InstantaneousDemand where
  deviceMacId : String
  meterMacId : String
  timeStamp : String
  demand : String
  multiplier : String
  divisor : String
  digitsRight : String
  digitsLeft : String
  suppressLeadingZero : String
deriving DecidableEq

/-- The `CurrentSummationDelivered` struct of main.go
(`SummationDelivered`, `SummationReceived`, `Multiplier`, `Divisor`
carry `validate:"required,hexadecimal"`). -/
structure CurrentSummationDelivered where
  deviceMacId : String
  meterMacId : String
  timeStamp : String
  summationDelivered : String
  summationReceived : String
  multiplier : String
  divisor : String
  digitsRight : String
  digitsLeft : String
  suppressLeadingZero : String
deriving DecidableEq

/-- Go zero value of the `InstantaneousDemand` struct (all fields empty). -/
def emptyID : InstantaneousDemand := ⟨"", "", "", "", "", "", "", "", ""⟩

/-- Go zero value of the `CurrentSummationDelivered` struct. -/
def emptyCSD : CurrentSummationDelivered := ⟨"", "", "", "", "", "", "", "", "", ""⟩

/-- Text content of the XML element `tag` in the frame, when present. -/
def lookupField (fields : List (String × String)) (tag : String) : Option String :=
  (fields.find? (fun p => p.1 == tag)).map (fun p => p.2)

/-- `xml.Unmarshal` of an instantaneous-demand frame over the
persistent struct: each present element overwrites its field, absent
elements leave the previous value in place. -/
def unmarshalID (prev : InstantaneousDemand) (fields : List (String × String)) :
    InstantaneousDemand :=
  { deviceMacId := (lookupField fields "DeviceMacId").getD prev.deviceMacId
    meterMacId := (lookupField fields "MeterMacId").getD prev.meterMacId
    timeStamp := (lookupField fields "TimeStamp").getD prev.timeStamp
    demand := (lookupField fields "Demand").getD prev.demand
    multiplier := (lookupField fields "Multiplier").getD prev.multiplier
    divisor := (lookupField fields "Divisor").getD prev.divisor
    digitsRight := (lookupField fields "DigitsRight").getD prev.digitsRight
    digitsLeft := (lookupField fields "DigitsLeft").getD prev.digitsLeft
    suppressLeadingZero :=
      (lookupField fields "SuppressLeadingZero").getD prev.suppressLeadingZero }

/-- `xml.Unmarshal` of a summation frame over the persistent struct. -/
def unmarshalCSD (prev : CurrentSummationDelivered) (fields : List (String × String)) :
    CurrentSummationDelivered :=
  { deviceMacId := (lookupField fields "DeviceMacId").getD prev.deviceMacId
    meterMacId := (lookupField fields "MeterMacId").getD prev.meterMacId
    timeStamp := (lookupField fields "TimeStamp").getD prev.timeStamp
    summationDelivered :=
      (lookupField fields "SummationDelivered").getD prev.summationDelivered
    summationReceived :=
      (lookupField fields "SummationReceived").getD prev.summationReceived
    multiplier := (lookupField fields "Multiplier").getD prev.multiplier
    divisor := (lookupField fields "Divisor").getD prev.divisor
    digitsRight := (lookupField fields "DigitsRight").getD prev.digitsRight
    digitsLeft := (lookupField fields "DigitsLeft").getD prev.digitsLeft
    suppressLeadingZero :=
      (lookupField fields "SuppressLeadingZero").getD prev.suppressLeadingZero }

/-- `v.Struct` on an `InstantaneousDemand` value: the three tagged
fields must be non-empty and hexadecimal. -/
def validateID (r : InstantaneousDemand) : Bool :=
  (requiredOK r.demand && hexadecimalOK r.demand) &&
    (requiredOK r.multiplier && hexadecimalOK r.multiplier) &&
    (requiredOK r.divisor && hexadecimalOK r.divisor)

/-- `v.Struct` on a `CurrentSummationDelivered` value: the four
tagged fields must be non-empty and hexadecimal. -/
def validateCSD (r : CurrentSummationDelivered) : Bool :=
  (requiredOK r.summationDelivered && hexadecimalOK r.summationDelivered) &&
    (requiredOK r.summationReceived && hexadecimalOK r.summationReceived) &&
    (requiredOK r.multiplier && hexadecimalOK r.multiplier) &&
    (requiredOK r.divisor && hexadecimalOK r.divisor)

/-- A frame as the decode loop sees it: the discriminant byte
`scanner.Text()[1]` and the XML element contents of the frame. -/
structure FrameData where
  discr : Char
  fields : List (String × String)

/-- Observable outcome of one iteration of the decode loop.
`power s` is a `publishPower` call with payload `s`;
`powerUnspecified` is a `publishPower` call whose payload comes from
`int` applied to a float Inf/NaN (divisor zero) and is
implementation-specific but non-empty; `energy d r` is a
`publishEnergy` call; `skipped` is the validation-failure log-and-
continue branch; `ignoredTime` is the time-cluster no-op branch;
`fatalParse` and `fatalUnknown` are the `log.Fatal` process
terminations. -/
inductive Outcome where
  | power (s : String)
  | powerUnspecified
  | energy (delivered received : String)
  | skipped
  | ignoredTime
  | fatalParse
  | fatalUnknown
deriving DecidableEq

/-- The persistent loop state of `scanSerial`: the two record structs
declared before the loop. -/
structure ScanState where
  instDemand : InstantaneousDemand
  currentSummation : CurrentSummationDelivered
deriving DecidableEq

/-- Loop state at entry to `scanSerial` (Go zero values). -/
def initState : ScanState := ⟨emptyID, emptyCSD⟩

/-- One iteration of the decode loop of `scanSerial`: switch on the
discriminant byte; unmarshal over the persistent struct; on
validation failure log and skip; parse the required fields with
`ParseInt(_, 0, 64)`, any failure being fatal; convert and publish. -/
def stepFrame (st : ScanState) (f : FrameData) : ScanState × Outcome :=
  if f.discr = 'I' then
    let r := unmarshalID st.instDemand f.fields
    let st2 := { st with instDemand := r }
    if ¬ validateID r then (st2, .skipped)
    else
      match parseInt0 r.demand with
      | none => (st2, .fatalParse)
      | some i =>
        match parseInt0 r.multiplier with
        | none => (st2, .fatalParse)
        | some mult =>
          match parseInt0 r.divisor with
          | none => (st2, .fatalParse)
          | some div =>
            if div = 0 then (st2, .powerUnspecified)
            else (st2, .power (toString (powerWatts i mult div)))
  else if f.discr = 'C' then
    let r := unmarshalCSD st.currentSummation f.fields
    let st2 := { st with currentSummation := r }
    if ¬ validateCSD r then (st2, .skipped)
    else
      match parseInt0 r.summationDelivered with
      | none => (st2, .fatalParse)
      | some d =>
        match parseInt0 r.summationReceived with
        | none => (st2, .fatalParse)
        | some rcv =>
          match parseInt0 r.multiplier with
          | none => (st2, .fatalParse)
          | some mult =>
            match parseInt0 r.divisor with
            | none => (st2, .fatalParse)
            | some div =>
              (st2, .energy (energyString d mult div) (energyString rcv mult div))
  else if f.discr = 'T' then (st, .ignoredTime)
  else (st, .fatalUnknown)

/-- `log.Fatal` terminates the process, ending the loop. -/
def Outcome.isFatal : Outcome → Bool
  | .fatalParse => true
  | .fatalUnknown => true
  | _ => false

/-- The decode loop over a sequence of frames: each frame is handled
fully before the next one; a fatal outcome stops the loop (the
process exits), every other outcome lets it continue. -/
def runFrames (st : ScanState) : List FrameData → List Outcome
  | [] => []
  | f :: fs =>
    let res := stepFrame st f
    if res.2.isFatal then [res.2] else res.2 :: runFrames res.1 fs

/-! ## Lemmas about the frame scanner -/

theorem firstIdx_some {p d : List Char} {i : Nat} (h : firstIdx p d = some i) :
    occursAt p d i ∧ ∀ j < i, ¬ occursAt p d j := by
  induction d generalizing i with
  | nil =>
    unfold firstIdx at h
    by_cases hp : p.isPrefixOf ([] : List Char)
    · simp [hp] at h
      subst h
      exact ⟨List.isPrefixOf_iff_prefix.mp hp, by omega⟩
    · simp [hp] at h
  | cons c t ih =>
    unfold firstIdx at h
    by_cases hp : p.isPrefixOf (c :: t)
    · simp [hp] at h
      subst h
      exact ⟨List.isPrefixOf_iff_prefix.mp hp, by omega⟩
    · simp [hp] at h
      obtain ⟨i0, hi0, rfl⟩ := h
      obtain ⟨h1, h2⟩ := ih hi0
      refine ⟨h1, ?_⟩
      intro j hj
      match j with
      | 0 =>
        intro hocc
        exact hp (List.isPrefixOf_iff_prefix.mpr (by simpa [occursAt] using hocc))
      | j + 1 =>
        have : j < i0 := by omega
        simpa [occursAt] using h2 j this

theorem firstIdx_none {p d : List Char} (h : firstIdx p d = none) :
    ∀ i, ¬ occursAt p d i := by
  induction d with
  | nil =>
    unfold firstIdx at h
    by_cases hp : p.isPrefixOf ([] : List Char)
    · simp [hp] at h
    · intro i hocc
      have : p = [] := List.prefix_nil.mp (by simpa [occursAt, List.drop_nil] using hocc)
      subst this
      simp at hp
  | cons c t ih =>
    unfold firstIdx at h
    by_cases hp : p.isPrefixOf (c :: t)
    · simp [hp] at h
    · simp [hp] at h
      intro i hocc
      match i with
      | 0 => exact hp (List.isPrefixOf_iff_prefix.mpr (by simpa [occursAt] using hocc))
      | i + 1 => exact ih h i (by simpa [occursAt] using hocc)

theorem firstIdx_of_earliest {p d : List Char} {i : Nat} (h1 : occursAt p d i)
    (h2 : ∀ j < i, ¬ occursAt p d j) : firstIdx p d = some i := by
  match hf : firstIdx p d with
  | none => exact absurd h1 (firstIdx_none hf i)
  | some k =>
    obtain ⟨hk1, hk2⟩ := firstIdx_some hf
    rcases Nat.lt_trichotomy k i with hlt | heq | hgt
    · exact absurd hk1 (h2 k hlt)
    · rw [heq]
    · exact absurd h1 (hk2 i hgt)

theorem occursAt_length {p d : List Char} {i : Nat} (hp : p ≠ []) (h : occursAt p d i) :
    i + p.length ≤ d.length := by
  have h2 : p <+: d.drop i := h
  have hlen : p.length ≤ (d.drop i).length := h2.length_le
  rw [List.length_drop] at hlen
  by_cases hid : d.length ≤ i
  · rw [List.drop_eq_nil_iff.mpr hid] at h2
    exact absurd (List.prefix_nil.mp h2) hp
  · omega

theorem bounded_no_occurrence {p d : List Char} (hp : p ≠ [])
    (h : ∀ j < d.length, ¬ occursAt p d j) : ∀ j, ¬ occursAt p d j := by
  intro j hocc
  by_cases hj : j < d.length
  · exact h j hj hocc
  · have h2 : p <+: d.drop j := hocc
    rw [List.drop_eq_nil_iff.mpr (by omega)] at h2
    exact hp (List.prefix_nil.mp h2)

theorem occursAt_contained {p d : List Char} {i : Nat} (h : occursAt p d i) : p <:+: d := by
  obtain ⟨t, ht⟩ := h
  exact ⟨d.take i, t, by rw [List.append_assoc, ht, List.take_append_drop]⟩

/-- Each of the three markers is non-empty. -/
theorem markers_ne_nil : ∀ m ∈ markers, m ≠ [] := by decide

/-- The token cut at an occurrence of `p` ending at `i + p.length` is
the bytes before the occurrence followed by `p` itself. -/
theorem take_occurrence {p d : List Char} {i : Nat} (h : occursAt p d i) :
    d.take (i + p.length) = d.take i ++ p := by
  obtain ⟨t, ht⟩ := h
  rw [List.take_add d i p.length]
  congr 1
  rw [← ht, List.take_left]

/-- Structure of a successful split: the token ends in one of the
three markers, token and remainder partition the buffer, and the
token is non-empty. -/
theorem splitFrame_some {d t r : List Char} (h : splitFrame d = some (t, r)) :
    (∃ m ∈ markers, m <:+ t ∧ m.length ≤ t.length) ∧ t ++ r = d ∧ t ≠ [] := by
  unfold splitFrame at h
  have main : ∀ (m : List Char) (i : Nat), m ∈ markers → firstIdx m d = some i →
      t = d.take (i + m.length) → r = d.drop (i + m.length) →
      (∃ m ∈ markers, m <:+ t ∧ m.length ≤ t.length) ∧ t ++ r = d ∧ t ≠ [] := by
    intro m i hm hf ht hr
    have hocc := (firstIdx_some hf).1
    have htake := take_occurrence hocc
    have hsuf : m <:+ t := ⟨d.take i, by rw [ht, htake]⟩
    have hmne : m ≠ [] := markers_ne_nil m hm
    refine ⟨⟨m, hm, hsuf, hsuf.length_le⟩, ?_, ?_⟩
    · rw [ht, hr, List.take_append_drop]
    · rw [ht, htake]
      intro hnil
      exact hmne (List.append_eq_nil.mp hnil).2
  match h1 : firstIdx mID d with
  | some i =>
    rw [h1] at h
    simp only [Option.some.injEq, Prod.mk.injEq] at h
    exact main mID i (by simp [markers]) h1 h.1.symm h.2.symm
  | none =>
    rw [h1] at h
    match h2 : firstIdx mCSD d with
    | some i =>
      rw [h2] at h
      simp only [Option.some.injEq, Prod.mk.injEq] at h
      exact main mCSD i (by simp [markers]) h2 h.1.symm h.2.symm
    | none =>
      rw [h2] at h
      match h3 : firstIdx mTC d with
      | some i =>
        rw [h3] at h
        simp only [Option.some.injEq, Prod.mk.injEq] at h
        exact main mTC i (by simp [markers]) h3 h.1.symm h.2.symm
      | none => rw [h3] at h; exact absurd h (by simp)

/-- When no marker occurs in the buffer the split function yields no
token (the scanner requests more bytes). -/
theorem splitFrame_eq_none {d : List Char} (h : ∀ m ∈ markers, ¬ m <:+: d) :
    splitFrame d = none := by
  have hnone : ∀ m ∈ markers, firstIdx m d = none := by
    intro m hm
    match hf : firstIdx m d with
    | none => rfl
    | some i => exact absurd (occursAt_contained (firstIdx_some hf).1) (h m hm)
  unfold splitFrame
  rw [hnone mID (by simp [markers]), hnone mCSD (by simp [markers]),
    hnone mTC (by simp [markers])]

theorem drainFuel_none {d : List Char} (h : splitFrame d = none) :
    ∀ fuel, drainFuel fuel d = ([], d) := by
  intro fuel
  cases fuel with
  | zero => rfl
  | succ n => unfold drainFuel; rw [h]

/-- Soundness of the extraction loop, for sufficient fuel: the
emitted tokens followed by the remainder reassemble the buffer, every
token ends in a marker, and the remainder holds no further token. -/
theorem drainFuel_sound : ∀ (fuel : Nat) (d : List Char), d.length ≤ fuel →
    (drainFuel fuel d).1.flatten ++ (drainFuel fuel d).2 = d ∧
      (∀ f ∈ (drainFuel fuel d).1, ∃ m ∈ markers, m <:+ f ∧ m.length ≤ f.length) ∧
      splitFrame (drainFuel fuel d).2 = none := by
  intro fuel
  induction fuel with
  | zero =>
    intro d hd
    have : d = [] := List.eq_nil_of_length_eq_zero (by omega)
    subst this
    refine ⟨rfl, by simp [drainFuel], ?_⟩
    exact splitFrame_eq_none (by decide)
  | succ n ih =>
    intro d hd
    match hs : splitFrame d with
    | none =>
      rw [drainFuel_none hs]
      exact ⟨rfl, by simp, hs⟩
    | some (t, r) =>
      obtain ⟨hm, htr, htne⟩ := splitFrame_some hs
      have hrlen : r.length ≤ n := by
        have : t.length + r.length = d.length := by rw [← htr]; simp
        have : 1 ≤ t.length := by
          cases t with
          | nil => exact absurd rfl htne
          | cons a b => simp
        omega
      obtain ⟨ih1, ih2, ih3⟩ := ih r hrlen
      unfold drainFuel
      rw [hs]
      refine ⟨?_, ?_, ih3⟩
      · simp only [List.flatten_cons, List.append_assoc, ih1, htr]
      · intro f hf
        simp only [List.mem_cons] at hf
        rcases hf with rfl | hf
        · exact hm
        · exact ih2 f hf

theorem drain_sound (d : List Char) :
    (drain d).1.flatten ++ (drain d).2 = d ∧
      (∀ f ∈ (drain d).1, ∃ m ∈ markers, m <:+ f ∧ m.length ≤ f.length) ∧
      splitFrame (drain d).2 = none :=
  drainFuel_sound d.length d (Nat.le_refl _)

/-- Every frame the scanner emits ends in one of the three markers. -/
theorem scanGo_frames : ∀ (chunks : List (List Char)) (buffer f : List Char),
    f ∈ scanGo buffer chunks → ∃ m ∈ markers, m <:+ f ∧ m.length ≤ f.length := by
  intro chunks
  induction chunks with
  | nil => intro buffer f hf; simp [scanGo] at hf
  | cons c cs ih =>
    intro buffer f hf
    unfold scanGo at hf
    rw [List.mem_append] at hf
    rcases hf with hf | hf
    · exact (drain_sound (buffer ++ c)).2.1 f hf
    · exact ih _ f hf

/-- The frames the scanner emits are consecutive disjoint segments:
their concatenation, followed by some rest, is the input stream. -/
theorem scanGo_flatten : ∀ (chunks : List (List Char)) (buffer : List Char),
    ∃ rest, (scanGo buffer chunks).flatten ++ rest = buffer ++ chunks.flatten := by
  intro chunks
  induction chunks with
  | nil => intro buffer; exact ⟨buffer, by simp [scanGo]⟩
  | cons c cs ih =>
    intro buffer
    obtain ⟨rest, hrest⟩ := ih (drain (buffer ++ c)).2
    refine ⟨rest, ?_⟩
    have hd := (drain_sound (buffer ++ c)).1
    unfold scanGo
    simp only [List.flatten_append, List.append_assoc, List.flatten_cons]
    rw [hrest, ← List.append_assoc, hd, List.append_assoc]

/-- A buffer holding no marker yields no frame. -/
theorem runScanner_single_none {d : List Char} (h : ∀ m ∈ markers, ¬ m <:+: d) :
    runScanner [d] = [] := by
  unfold runScanner scanGo
  unfold drain
  rw [drainFuel_none (splitFrame_eq_none (by simpa using h))]
  rfl

theorem splitFrame_nil : splitFrame [] = none := by decide

/-- An occurrence wholly inside the first `n` bytes is an occurrence
in the `n`-byte front. -/
theorem occursAt_contained_take {m s : List Char} {i n : Nat} (h : occursAt m s i)
    (hn : i + m.length ≤ n) : m <:+: s.take n := by
  have hocc2 : occursAt m (s.take n) i := by
    show m <+: (s.take n).drop i
    rw [List.drop_take]
    obtain ⟨t, ht⟩ := h
    rw [← ht, List.take_append_eq_append_take, List.take_of_length_le (by omega)]
    exact ⟨_, rfl⟩
  exact occursAt_contained hocc2

/-- For a buffer that is one complete frame (no marker occurs inside
any proper front), every marker occurrence ends exactly at the end of
the buffer. -/
theorem occurrence_ends_at_length {s : List Char}
    (h1 : ∀ n < s.length, ∀ m ∈ markers, ¬ m <:+: s.take n) :
    ∀ m ∈ markers, ∀ i, occursAt m s i → i + m.length = s.length := by
  intro m hm i hocc
  have hle := occursAt_length (markers_ne_nil m hm) hocc
  by_cases hlt : i + m.length < s.length
  · exact absurd (occursAt_contained_take hocc (Nat.le_refl _)) (h1 (i + m.length) hlt m hm)
  · omega

/-- On a buffer that is one complete frame the split function emits
the whole buffer and leaves nothing. -/
theorem splitFrame_full {s : List Char}
    (h1 : ∀ n < s.length, ∀ m ∈ markers, ¬ m <:+: s.take n)
    (h2 : ∃ m ∈ markers, m <:+ s) :
    splitFrame s = some (s, []) := by
  have hends := occurrence_ends_at_length h1
  have emit : ∀ (m : List Char) (i : Nat), m ∈ markers → firstIdx m s = some i →
      some (s.take (i + m.length), s.drop (i + m.length)) = some (s, ([] : List Char)) := by
    intro m i hm hf
    have := hends m hm i (firstIdx_some hf).1
    rw [this, List.take_length, List.drop_length]
  have hsome : ∀ (m : List Char), m ∈ markers → m <:+ s → firstIdx m s ≠ none := by
    intro m hm hsuf hnone
    obtain ⟨pre, hpre⟩ := hsuf
    have hocc : occursAt m s pre.length := by
      show m <+: s.drop pre.length
      rw [← hpre, List.drop_left]
    exact firstIdx_none hnone pre.length hocc
  unfold splitFrame
  match hf1 : firstIdx mID s with
  | some i => exact emit mID i (by simp [markers]) hf1
  | none =>
    match hf2 : firstIdx mCSD s with
    | some i => exact emit mCSD i (by simp [markers]) hf2
    | none =>
      match hf3 : firstIdx mTC s with
      | some i => exact emit mTC i (by simp [markers]) hf3
      | none =>
        exfalso
        obtain ⟨m, hm, hsuf⟩ := h2
        simp only [markers, List.mem_cons, List.not_mem_nil, or_false] at hm
        rcases hm with rfl | rfl | rfl
        · exact hsome mID (by simp [markers]) hsuf hf1
        · exact hsome mCSD (by simp [markers]) hsuf hf2
        · exact hsome mTC (by simp [markers]) hsuf hf3

/-- Extraction on a buffer that is exactly one complete frame: one
token, empty remainder. -/
theorem drain_full {s : List Char} (hs : splitFrame s = some (s, []))
    (hne : s ≠ []) : drain s = ([s], []) := by
  obtain ⟨n, hn⟩ : ∃ n, s.length = n + 1 := by
    cases hl : s.length with
    | zero => exact absurd (List.eq_nil_of_length_eq_zero hl) hne
    | succ n => exact ⟨n, rfl⟩
  unfold drain
  rw [hn]
  show (match splitFrame s with
    | none => ([], s)
    | some (t, r) => ((t :: (drainFuel n r).1, (drainFuel n r).2) :
        List (List Char) × List Char)) = ([s], [])
  rw [hs]
  show (s :: (drainFuel n []).1, (drainFuel n []).2) = ([s], [])
  rw [drainFuel_none splitFrame_nil]

/-- A run of empty reads emits nothing. -/
theorem scanGo_flatten_nil : ∀ (chunks : List (List Char)),
    chunks.flatten = [] → scanGo [] chunks = [] := by
  intro chunks
  induction chunks with
  | nil => intro _; rfl
  | cons c cs ih =>
    intro h
    rw [List.flatten_cons, List.append_eq_nil] at h
    show (drain ([] ++ c)).1 ++ scanGo (drain ([] ++ c)).2 cs = []
    rw [h.1]
    have hd : drain (([] : List Char) ++ []) = ([], []) :=
      drainFuel_none splitFrame_nil 0
    rw [hd]
    show ([] : List (List Char)) ++ scanGo [] cs = []
    rw [ih h.2]
    rfl

/-- Core of chunk-size independence: while the accumulated buffer is
a proper front of the single complete frame `s`, the scanner only
buffers; when the last byte arrives it emits exactly `s`. -/
theorem scanGo_complete {s : List Char}
    (h1 : ∀ n < s.length, ∀ m ∈ markers, ¬ m <:+: s.take n)
    (h2 : ∃ m ∈ markers, m <:+ s) :
    ∀ (chunks : List (List Char)) (buffer : List Char),
      buffer ++ chunks.flatten = s → buffer ≠ s → scanGo buffer chunks = [s] := by
  have hsne : s ≠ [] := by
    obtain ⟨m, hm, hsuf⟩ := h2
    intro hnil
    subst hnil
    exact markers_ne_nil m hm (List.suffix_nil.mp hsuf)
  have hfull := splitFrame_full h1 h2
  intro chunks
  induction chunks with
  | nil =>
    intro buffer hb hbne
    rw [List.flatten_nil, List.append_nil] at hb
    exact absurd hb hbne
  | cons c cs ih =>
    intro buffer hb hbne
    rw [List.flatten_cons, ← List.append_assoc] at hb
    show (drain (buffer ++ c)).1 ++ scanGo (drain (buffer ++ c)).2 cs = [s]
    by_cases hfullbuf : buffer ++ c = s
    · have hcs : cs.flatten = [] := by
        have := hb
        rw [hfullbuf] at this
        have hlen := congrArg List.length this
        simp only [List.length_append] at hlen
        exact List.eq_nil_of_length_eq_zero (by omega)
      rw [hfullbuf, drain_full hfull hsne]
      show [s] ++ scanGo [] cs = [s]
      rw [scanGo_flatten_nil cs hcs]
      rfl
    · have hpre : (buffer ++ c) <+: s := ⟨cs.flatten, hb⟩
      have hlt : (buffer ++ c).length < s.length := by
        have hle := hpre.length_le
        by_cases heq : (buffer ++ c).length = s.length
        · exact absurd (hpre.eq_of_length heq) hfullbuf
        · omega
      have hnomark : ∀ m ∈ markers, ¬ m <:+: (buffer ++ c) := by
        intro m hm
        have : buffer ++ c = s.take (buffer ++ c).length :=
          List.prefix_iff_eq_take.mp hpre
        rw [this]
        exact h1 (buffer ++ c).length hlt m hm
      have hdrain : drain (buffer ++ c) = ([], buffer ++ c) := by
        unfold drain
        exact drainFuel_none (splitFrame_eq_none hnomark) _
      rw [hdrain]
      show scanGo (buffer ++ c) cs = [s]
      exact ih (buffer ++ c) hb hfullbuf

/-! ## Lemmas about field parsing -/

/-- A regex hexadecimal digit is accepted by the base-16 digit loop
with value below 16. -/
theorem digitVal_hex {c : Char} (h : isHexDigit c = true) :
    ∃ d, digitVal c = some d ∧ d < 16 := by
  unfold digitVal lowerByte
  simp only [isHexDigit, decide_eq_true_eq] at h
  generalize hn : c.toNat = n at h ⊢
  rcases h with h | h | h
  · rw [if_pos (by omega)]
    exact ⟨n - 48, rfl, by omega⟩
  · obtain ⟨ha, hb⟩ := h
    have hor : n ||| 32 = n := by interval_cases n <;> decide
    rw [if_neg (by omega), hor, if_pos (by omega)]
    exact ⟨n - 97 + 10, rfl, by omega⟩
  · obtain ⟨ha, hb⟩ := h
    have hor : n ||| 32 = n + 32 := by interval_cases n <;> decide
    rw [if_neg (by omega), hor, if_pos (by omega)]
    exact ⟨n + 32 - 97 + 10, rfl, by omega⟩

/-- The digit loop succeeds on hexadecimal digits and its result is
bounded by the number of digits consumed. -/
theorem digitsValue_hex : ∀ (l : List Char) (acc : Nat),
    (∀ c ∈ l, isHexDigit c = true) →
    ∃ v, digitsValue 16 acc l = some v ∧ v < (acc + 1) * 16 ^ l.length := by
  intro l
  induction l with
  | nil =>
    intro acc _
    exact ⟨acc, rfl, by simp⟩
  | cons c t ih =>
    intro acc h
    obtain ⟨d, hd, hdlt⟩ := digitVal_hex (h c (by simp))
    obtain ⟨v, hv, hvlt⟩ := ih (acc * 16 + d) (fun x hx => h x (by simp [hx]))
    refine ⟨v, ?_, ?_⟩
    · simp only [digitsValue, hd]
      rw [if_pos hdlt]
      exact hv
    · have hstep : (acc * 16 + d + 1) * 16 ^ t.length ≤ (acc + 1) * 16 ^ (t.length + 1) := by
        have h16 : acc * 16 + d + 1 ≤ (acc + 1) * 16 := by omega
        calc (acc * 16 + d + 1) * 16 ^ t.length
            ≤ ((acc + 1) * 16) * 16 ^ t.length := Nat.mul_le_mul_right _ h16
          _ = (acc + 1) * 16 ^ (t.length + 1) := by ring
      simp only [List.length_cons]
      omega

/-- A hexadecimal digit is not an underscore. -/
theorem isHexDigit_ne_underscore {c : Char} (h : isHexDigit c = true) : c ≠ '_' := by
  intro hc
  subst hc
  simp [isHexDigit] at h

/-- A string that passes the validator with an explicit `0x`/`0X`
prefix has a non-empty all-hexadecimal digit tail. -/
theorem hexadecimalOK_prefix {s : String} {x : Char} {rest : List Char}
    (hl : s.toList = '0' :: x :: rest) (hx : x = 'x' ∨ x = 'X')
    (h : hexadecimalOK s = true) :
    rest ≠ [] ∧ ∀ c ∈ rest, isHexDigit c = true := by
  unfold hexadecimalOK at h
  rw [hl] at h
  have hxhex : isHexDigit x = false := by rcases hx with rfl | rfl <;> decide
  simp only [Bool.or_eq_true, Bool.and_eq_true, decide_eq_true_eq, List.all_eq_true] at h
  rcases h with ⟨_, hall⟩ | ⟨⟨⟨_, _⟩, hne⟩, hall⟩
  · have := hall x (by simp)
    rw [hxhex] at this
    exact absurd this (by simp)
  · exact ⟨hne, hall⟩

/-- Base-0 parsing succeeds on every `0x`/`0X`-prefixed string of at
most 15 hexadecimal digits (the value is below `2^60`, inside the
signed 64-bit range). -/
theorem parseInt0_hex_prefix {s : String} {x : Char} {rest : List Char}
    (hl : s.toList = '0' :: x :: rest) (hx : x = 'x' ∨ x = 'X')
    (hne : rest ≠ []) (hall : ∀ c ∈ rest, isHexDigit c = true)
    (hlen : rest.length ≤ 15) : ∃ v, parseInt0 s = some v := by
  obtain ⟨v, hv, hvlt⟩ := digitsValue_hex rest 0 hall
  have hvbound : v < 2 ^ 60 := by
    have h1 : (16 : Nat) ^ rest.length ≤ 16 ^ 15 :=
      Nat.pow_le_pow_right (by omega) hlen
    have h2 : (16 : Nat) ^ 15 = 2 ^ 60 := by norm_num
    omega
  have hnunder : rest.filter (fun c => decide (c ≠ '_')) = rest :=
    List.filter_eq_self.mpr (fun c hc => by
      simpa using isHexDigit_ne_underscore (hall c hc))
  have hany : rest.any (fun c => decide (c = '_')) = false := by
    rw [List.any_eq_false]
    intro c hc
    simpa using isHexDigit_ne_underscore (hall c hc)
  refine ⟨(v : Int), ?_⟩
  simp only [parseInt0, hl]
  rw [if_neg (show ¬ (('0' : Char) = '+' ∨ ('0' : Char) = '-') by decide)]
  have hpu : parseUint0 ('0' :: x :: rest) = some v := by
    simp only [parseUint0]
    rw [if_neg (by simp)]
    have hb : ¬ ((x = 'b' ∨ x = 'B') ∧ rest ≠ []) := by
      rintro ⟨hb, -⟩
      rcases hx with rfl | rfl <;> rcases hb with hb | hb <;> exact absurd hb (by decide)
    have ho : ¬ ((x = 'o' ∨ x = 'O') ∧ rest ≠ []) := by
      rintro ⟨ho, -⟩
      rcases hx with rfl | rfl <;> rcases ho with ho | ho <;> exact absurd ho (by decide)
    simp only [if_true]
    rw [if_neg hb, if_neg ho,
      if_pos (show (x = 'x' ∨ x = 'X') ∧ rest ≠ [] from ⟨hx, hne⟩)]
    simp only [hnunder, hany, hv, Bool.false_eq_true, false_and, if_false]
    rw [if_pos (show v < 2 ^ 64 by
      have : (2 : Nat) ^ 60 < 2 ^ 64 := by norm_num
      omega)]
  rw [hpu]
  have h63 : (v : Nat) < 2 ^ 63 := by
    have : (2 : Nat) ^ 60 < 2 ^ 63 := by norm_num
    omega
  show (if ¬ ('0' : Char) = '-' ∧ 2 ^ 63 ≤ v then none
    else if ('0' : Char) = '-' ∧ 2 ^ 63 < v then none
    else some (if ('0' : Char) = '-' then -(v : Int) else (v : Int))) = some (v : Int)
  rw [if_neg (by rintro ⟨-, hge⟩; omega),
    if_neg (by rintro ⟨hc, -⟩; exact absurd hc (by decide)),
    if_neg (show ¬ (('0' : Char) = '-') by decide)]

theorem firstIdx_eq_none {p d : List Char} (h : ∀ j, ¬ occursAt p d j) :
    firstIdx p d = none := by
  match hf : firstIdx p d with
  | none => rfl
  | some i => exact absurd (firstIdx_some hf).1 (h i)

/-! ## Claim theorems -/

/-- C1 counterexample: a validated instantaneous-demand record with
divisor text `00000000` (value zero) does not raise any error — the
loop publishes a power payload (the implementation-specific integer
conversion of a float Inf/NaN) and continues with the next frame. -/
theorem c1_counterexample :
    runFrames initState
      [⟨'I', [("Demand", "0x1"), ("Multiplier", "0x1"), ("Divisor", "00000000")]⟩,
       ⟨'T', []⟩] =
      [Outcome.powerUnspecified, Outcome.ignoredTime] := by decide

/-- C1 (amended): a validated record whose divisor parses to zero is
not a defined failure and terminates nothing.  For an instantaneous-
demand record the float division produces Inf/NaN, the integer
conversion of it is published (`publishPower` is called with a
non-empty implementation-specific payload), and the loop continues
with the remaining frames.  For a summation record the float
divisions produce `+Inf`, `-Inf` or `NaN` according to the sign of
`summation_i32 * multiplier`, `%.3f` renders those verbatim,
`publishEnergy` publishes both strings, and the loop continues. -/
theorem c1_zero_divisor_publishes :
    (∀ (st : ScanState) (f : FrameData) (fs : List FrameData) (i mult : Int),
      f.discr = 'I' →
      validateID (unmarshalID st.instDemand f.fields) = true →
      parseInt0 (unmarshalID st.instDemand f.fields).demand = some i →
      parseInt0 (unmarshalID st.instDemand f.fields).multiplier = some mult →
      parseInt0 (unmarshalID st.instDemand f.fields).divisor = some 0 →
      runFrames st (f :: fs) =
        Outcome.powerUnspecified ::
          runFrames { st with instDemand := unmarshalID st.instDemand f.fields } fs) ∧
    (∀ (st : ScanState) (f : FrameData) (fs : List FrameData) (d rcv mult : Int),
      f.discr = 'C' →
      validateCSD (unmarshalCSD st.currentSummation f.fields) = true →
      parseInt0 (unmarshalCSD st.currentSummation f.fields).summationDelivered = some d →
      parseInt0 (unmarshalCSD st.currentSummation f.fields).summationReceived = some rcv →
      parseInt0 (unmarshalCSD st.currentSummation f.fields).multiplier = some mult →
      parseInt0 (unmarshalCSD st.currentSummation f.fields).divisor = some 0 →
      runFrames st (f :: fs) =
        Outcome.energy
          (if 0 < toInt32 d * mult then "+Inf"
           else if toInt32 d * mult < 0 then "-Inf" else "NaN")
          (if 0 < toInt32 rcv * mult then "+Inf"
           else if toInt32 rcv * mult < 0 then "-Inf" else "NaN") ::
          runFrames
            { st with currentSummation := unmarshalCSD st.currentSummation f.fields }
            fs) := by
  constructor
  · intro st f fs i mult hd hv hi hm hz
    have hstep : stepFrame st f =
        ({ st with instDemand := unmarshalID st.instDemand f.fields },
          Outcome.powerUnspecified) := by
      simp only [stepFrame, hd, if_true, hv, hi, hm, hz, not_true, if_false]
    show (if (stepFrame st f).2.isFatal = true then [(stepFrame st f).2]
      else (stepFrame st f).2 ::
        runFrames (stepFrame st f).1 fs) = Outcome.powerUnspecified ::
          runFrames { st with instDemand := unmarshalID st.instDemand f.fields } fs
    rw [hstep]
    rfl
  · intro st f fs d rcv mult hd hv h1 h2 h3 h4
    have hstep : stepFrame st f =
        ({ st with currentSummation := unmarshalCSD st.currentSummation f.fields },
          Outcome.energy
            (if 0 < toInt32 d * mult then "+Inf"
             else if toInt32 d * mult < 0 then "-Inf" else "NaN")
            (if 0 < toInt32 rcv * mult then "+Inf"
             else if toInt32 rcv * mult < 0 then "-Inf" else "NaN")) := by
      simp only [stepFrame, hd, if_true, hv, h1, h2, h3, h4, not_true, if_false]
      rw [if_neg (show ¬ (('C' : Char) = 'I') by decide)]
      simp [energyString]
    show (if (stepFrame st f).2.isFatal = true then [(stepFrame st f).2]
      else (stepFrame st f).2 :: runFrames (stepFrame st f).1 fs) =
        Outcome.energy
          (if 0 < toInt32 d * mult then "+Inf"
           else if toInt32 d * mult < 0 then "-Inf" else "NaN")
          (if 0 < toInt32 rcv * mult then "+Inf"
           else if toInt32 rcv * mult < 0 then "-Inf" else "NaN") ::
          runFrames
            { st with currentSummation := unmarshalCSD st.currentSummation f.fields }
            fs
    rw [hstep]
    rfl

theorem c1_zero_divisor_publishes_witness :
    runFrames initState
      [⟨'I', [("Demand", "0x1"), ("Multiplier", "0x1"), ("Divisor", "0x0")]⟩] =
      [Outcome.powerUnspecified] ∧
    runFrames initState
      [⟨'C', [("SummationDelivered", "0x1"), ("SummationReceived", "0x0"),
              ("Multiplier", "0x1"), ("Divisor", "00000000")]⟩] =
      [Outcome.energy "+Inf" "NaN"] := by
  constructor
  · have := c1_zero_divisor_publishes.1 initState
      ⟨'I', [("Demand", "0x1"), ("Multiplier", "0x1"), ("Divisor", "0x0")]⟩ [] 1 1
      rfl (by decide) (by decide) (by decide) (by decide)
    simpa [runFrames] using this
  · have := c1_zero_divisor_publishes.2 initState
      ⟨'C', [("SummationDelivered", "0x1"), ("SummationReceived", "0x0"),
             ("Multiplier", "0x1"), ("Divisor", "00000000")]⟩ [] 1 0 1
      rfl (by decide) (by decide) (by decide) (by decide) (by decide)
    simpa [runFrames, toInt32] using this

/-- C2 counterexample: the second frame is missing the required
`Demand` element, yet the loop publishes a power value for it — the
stale `Demand` text of the first frame survives in the reused struct,
passes validation, and is re-published. -/
theorem c2_counterexample :
    runFrames initState
      [⟨'I', [("Demand", "0x2"), ("Multiplier", "0x1"), ("Divisor", "0x1")]⟩,
       ⟨'I', [("Multiplier", "0x1"), ("Divisor", "0x1")]⟩] =
      [Outcome.power "2000", Outcome.power "2000"] ∧
    lookupField [("Multiplier", "0x1"), ("Divisor", "0x1")] "Demand" = none := by decide

/-- C2 (amended): when the record obtained by unmarshalling the frame
over the persistent struct (residual fields included) fails the
required/hexadecimal validation, no publish call is made for that
frame — the loop logs and skips; but a missing required field is
filled from residual data of an earlier record of the same kind and,
when the residual validates, a value is dispatched. -/
theorem c2_merged_validation_skips (st : ScanState) (f : FrameData) :
    (f.discr = 'I' → validateID (unmarshalID st.instDemand f.fields) = false →
      stepFrame st f =
        ({ st with instDemand := unmarshalID st.instDemand f.fields }, Outcome.skipped)) ∧
    (f.discr = 'C' → validateCSD (unmarshalCSD st.currentSummation f.fields) = false →
      stepFrame st f =
        ({ st with currentSummation := unmarshalCSD st.currentSummation f.fields },
          Outcome.skipped)) := by
  constructor
  · intro hd hv
    simp only [stepFrame, hd, if_true, hv, Bool.false_eq_true, not_false_iff, if_true]
  · intro hd hv
    simp only [stepFrame, hd, if_false, if_true, hv, Bool.false_eq_true,
      not_false_iff]
    rw [if_neg (show ¬ (('C' : Char) = 'I') by decide)]

theorem c2_merged_validation_skips_witness :
    stepFrame initState ⟨'I', [("Demand", "zz")]⟩ =
      ({ initState with
          instDemand := unmarshalID initState.instDemand [("Demand", "zz")] },
        Outcome.skipped) :=
  (c2_merged_validation_skips initState ⟨'I', [("Demand", "zz")]⟩).1 rfl (by decide)

/-- C3 counterexample: `FF` passes the validator hexadecimal check,
but `ParseInt(_, 0, 64)` reads it as a (prefixless) decimal number
and fails, taking the fatal branch. -/
theorem c3_counterexample : hexadecimalOK "FF" = true ∧ parseInt0 "FF" = none := by decide

/-- C3 (amended): the fatal parse branch is reachable for validated
fields (see the counterexample), because base-0 parsing only reads
hexadecimal when the text carries a `0x`/`0X` prefix; for every
validated field with such a prefix and at most 15 hexadecimal digits
the parse succeeds. -/
theorem c3_prefixed_parse_succeeds (s : String) (x : Char) (rest : List Char)
    (hl : s.toList = '0' :: x :: rest) (hx : x = 'x' ∨ x = 'X')
    (hok : hexadecimalOK s = true) (hlen : rest.length ≤ 15) :
    ∃ v, parseInt0 s = some v := by
  obtain ⟨hne, hall⟩ := hexadecimalOK_prefix hl hx hok
  exact parseInt0_hex_prefix hl hx hne hall hlen

theorem c3_prefixed_parse_succeeds_witness : ∃ v, parseInt0 "0x1F" = some v :=
  c3_prefixed_parse_succeeds "0x1F" 'x' ['1', 'F'] rfl (Or.inl rfl) (by decide) (by decide)

/-- C4 counterexample: with a time-cluster marker at offset 0 and an
instantaneous-demand marker after it, the split function emits the
frame delimited by the LATER instantaneous-demand marker (pattern
priority), not the earliest marker as the claim requires. -/
theorem c4_counterexample :
    splitFrame (mTC ++ mID) = some (mTC ++ mID, []) ∧
    splitFrameSpec (mTC ++ mID) = some (mTC, mID) ∧ mTC ++ mID ≠ mTC := by decide

/-- C4 (amended): the scanner tries the three closing markers in a
fixed order — instantaneous demand, then summation, then time
cluster — and emits the prefix of the buffer through the earliest
occurrence of the first marker kind present in that order; a marker
of a later kind at a smaller byte offset does not delimit the frame. -/
theorem c4_priority_order :
    (∀ (d : List Char) (i : Nat), occursAt mID d i → (∀ j < i, ¬ occursAt mID d j) →
      splitFrame d = some (d.take (i + 24), d.drop (i + 24))) ∧
    (∀ (d : List Char) (i : Nat), (∀ j < d.length, ¬ occursAt mID d j) →
      occursAt mCSD d i → (∀ j < i, ¬ occursAt mCSD d j) →
      splitFrame d = some (d.take (i + 30), d.drop (i + 30))) ∧
    (∀ (d : List Char) (i : Nat), (∀ j < d.length, ¬ occursAt mID d j) →
      (∀ j < d.length, ¬ occursAt mCSD d j) →
      occursAt mTC d i → (∀ j < i, ¬ occursAt mTC d j) →
      splitFrame d = some (d.take (i + 16), d.drop (i + 16))) := by
  refine ⟨?_, ?_, ?_⟩
  · intro d i h1 h2
    unfold splitFrame
    rw [firstIdx_of_earliest h1 h2]
  · intro d i hno h1 h2
    unfold splitFrame
    rw [firstIdx_eq_none (bounded_no_occurrence (by decide) hno),
      firstIdx_of_earliest h1 h2]
  · intro d i hno1 hno2 h1 h2
    unfold splitFrame
    rw [firstIdx_eq_none (bounded_no_occurrence (by decide) hno1),
      firstIdx_eq_none (bounded_no_occurrence (by decide) hno2),
      firstIdx_of_earliest h1 h2]

theorem c4_priority_order_witness :
    splitFrame mTC = some (mTC.take (0 + 16), mTC.drop (0 + 16)) :=
  c4_priority_order.2.2 mTC 0 (by decide) (by decide) (by decide) (by decide)

/-- C5 counterexample: demand `0x1`, multiplier `0x1`, divisor `0x40`
give the exact value 15.625 W; the code publishes `15` (the `int`
conversion truncates toward zero), while the claimed formula
`round(demand_i32 * multiplier / divisor * 1000)` gives 16. -/
theorem c5_counterexample :
    (stepFrame initState
      ⟨'I', [("Demand", "0x1"), ("Multiplier", "0x1"), ("Divisor", "0x40")]⟩).2 =
      Outcome.power "15" ∧
    powerRoundSpec 1 1 64 = 16 ∧ ("15" : String) ≠ "16" := by decide

/-- C5 (amended): for a validated instantaneous-demand record with
nonzero divisor the published power value is the truncation toward
zero (not the rounding) of `demand_i32 * multiplier / divisor *
1000`, with the demand first truncated to a signed 32-bit value.
The source computes the expression in float64; the last two
hypotheses (divisor a power of two and `|demand_i32 * multiplier| *
1000 < 2^53`) confine the statement to inputs on which the float64
evaluation is exact, where the program publishes exactly this value —
outside them float64 rounding can perturb the published integer.
They are modelling-fidelity bounds and are not needed by the
Lean proof, which is about the exact-arithmetic model. -/
theorem c5_truncated_power (st : ScanState) (f : FrameData) (i mult div : Int)
    (hd : f.discr = 'I')
    (hv : validateID (unmarshalID st.instDemand f.fields) = true)
    (hi : parseInt0 (unmarshalID st.instDemand f.fields).demand = some i)
    (hm : parseInt0 (unmarshalID st.instDemand f.fields).multiplier = some mult)
    (hdiv : parseInt0 (unmarshalID st.instDemand f.fields).divisor = some div)
    (hnz : div ≠ 0)
    (hpow2 : ∃ k : Nat, div = 2 ^ k)
    (hexact : (toInt32 i * mult).natAbs * 1000 < 2 ^ 53) :
    (stepFrame st f).2 = Outcome.power (toString (powerWatts i mult div)) := by
  simp only [stepFrame, hd, if_true, hv, hi, hm, hdiv, not_true, if_false, hnz]

theorem c5_truncated_power_witness :
    (stepFrame initState
      ⟨'I', [("Demand", "00000005"), ("Multiplier", "2"), ("Divisor", "1")]⟩).2 =
      Outcome.power "10000" := by
  have := c5_truncated_power initState
    ⟨'I', [("Demand", "00000005"), ("Multiplier", "2"), ("Divisor", "1")]⟩ 5 2 1
    rfl (by decide) (by decide) (by decide) (by decide) (by decide)
    ⟨0, by decide⟩ (by decide)
  simpa using this

/-- C6 counterexample: a record whose demand field is the literal
text `FFFFFFFF` passes validation but `ParseInt(_, 0, 64)` cannot
read it (no `0x` prefix, so it is treated as decimal), and the
process dies on the fatal branch — nothing is published, in
particular not `-1000`. -/
theorem c6_counterexample :
    runFrames initState
      [⟨'I', [("Demand", "FFFFFFFF"), ("Multiplier", "1"), ("Divisor", "1")]⟩] =
      [Outcome.fatalParse] ∧
    hexadecimalOK "FFFFFFFF" = true ∧
    Outcome.fatalParse ≠ Outcome.power "-1000" := by decide

/-- C6 (amended): with the prefixed field texts the device actually
sends — demand `0xFFFFFFFF`, multiplier `0x1`, divisor `0x1` — the
32-bit truncation recovers the sign and the published power is the
text `-1000`. -/
theorem c6_prefixed_sign_recovery :
    (stepFrame initState
      ⟨'I', [("Demand", "0xFFFFFFFF"), ("Multiplier", "0x1"), ("Divisor", "0x1")]⟩).2 =
      Outcome.power "-1000" := by decide

/-- C7 counterexample: a summation record whose delivered field is
the literal text `0000270F` passes validation, but base-0 parsing
reads the leading `0` as an octal prefix and fails on the digit `F`;
the process dies on the fatal branch and the string `9.999` is never
published. -/
theorem c7_counterexample :
    (stepFrame initState
      ⟨'C', [("SummationDelivered", "0000270F"), ("SummationReceived", "0"),
             ("Multiplier", "1"), ("Divisor", "1000")]⟩).2 = Outcome.fatalParse ∧
    hexadecimalOK "0000270F" = true ∧
    Outcome.fatalParse ≠ Outcome.energy "9.999" "0.000" := by decide

/-- C7 (amended): with the prefixed field text `0x0000270F` (9999),
multiplier `0x1` and divisor `0x3E8` (1000) the delivered energy is
published as `9.999` — the scaled value with exactly three fraction
digits — and the received value `0x0` as `0.000`. -/
theorem c7_prefixed_energy_format :
    (stepFrame initState
      ⟨'C', [("SummationDelivered", "0x0000270F"), ("SummationReceived", "0x0"),
             ("Multiplier", "0x1"), ("Divisor", "0x3E8")]⟩).2 =
      Outcome.energy "9.999" "0.000" ∧
    energyString 9999 1 1000 = "9.999" := by decide

/-- C8: a frame whose discriminant byte (`scanner.Text()[1]`) is none
of the three recognized record tags takes the default `log.Fatal`
branch: the state is unchanged, no measurement outcome is produced
for the frame, and no further frames are processed. -/
theorem c8_unknown_discriminant_fatal (st : ScanState) (f : FrameData)
    (fs : List FrameData)
    (h1 : f.discr ≠ 'I') (h2 : f.discr ≠ 'C') (h3 : f.discr ≠ 'T') :
    stepFrame st f = (st, Outcome.fatalUnknown) ∧
    runFrames st (f :: fs) = [Outcome.fatalUnknown] := by
  have hstep : stepFrame st f = (st, Outcome.fatalUnknown) := by
    unfold stepFrame
    rw [if_neg h1, if_neg h2, if_neg h3]
  refine ⟨hstep, ?_⟩
  show (if (stepFrame st f).2.isFatal = true then [(stepFrame st f).2]
    else (stepFrame st f).2 :: runFrames (stepFrame st f).1 fs) = [Outcome.fatalUnknown]
  rw [hstep]
  rfl

theorem c8_unknown_discriminant_fatal_witness :
    stepFrame initState ⟨'X', []⟩ = (initState, Outcome.fatalUnknown) ∧
    runFrames initState [⟨'X', []⟩, ⟨'T', []⟩] = [Outcome.fatalUnknown] :=
  c8_unknown_discriminant_fatal initState ⟨'X', []⟩ [⟨'T', []⟩]
    (by decide) (by decide) (by decide)

/-- C9: every frame the scanner emits ends in (hence is at least as
long as) one of the three closing markers; the emitted frames are
consecutive disjoint segments of the input stream; and a buffer with
no marker yields no frame at all — the scanner waits for more bytes
instead of emitting an incomplete frame. -/
theorem c9_scanner_invariants :
    (∀ (chunks : List (List Char)) (f : List Char), f ∈ runScanner chunks →
      ∃ m ∈ markers, m <:+ f ∧ m.length ≤ f.length) ∧
    (∀ chunks : List (List Char),
      ∃ rest, (runScanner chunks).flatten ++ rest = chunks.flatten) ∧
    (∀ d : List Char, (∀ m ∈ markers, ¬ m <:+: d) → runScanner [d] = []) :=
  ⟨fun chunks f hf => scanGo_frames chunks [] f hf,
   fun chunks => by simpa using scanGo_flatten chunks [],
   fun _ h => runScanner_single_none h⟩

theorem c9_scanner_invariants_witness :
    (∃ m ∈ markers, m <:+ mTC ∧ m.length ≤ mTC.length) ∧
    runScanner [['a', 'b']] = [] :=
  ⟨c9_scanner_invariants.1 [mTC] mTC (by decide),
   c9_scanner_invariants.2.2 ['a', 'b'] (by decide)⟩

/-- C10: a byte sequence forming one complete frame (it ends in a
closing marker and no marker occurs inside any proper front of it)
produces the same emitted frames — exactly the frame itself — under
every partition of the sequence into successive reads as when it
arrives in a single read. -/
theorem c10_chunking_independent (s : List Char)
    (h1 : ∀ n < s.length, ∀ m ∈ markers, ¬ m <:+: s.take n)
    (h2 : ∃ m ∈ markers, m <:+ s) :
    ∀ chunks : List (List Char), chunks.flatten = s →
      runScanner chunks = runScanner [s] ∧ runScanner chunks = [s] := by
  have hsne : s ≠ [] := by
    intro hnil
    obtain ⟨m, hm, hsuf⟩ := h2
    subst hnil
    exact markers_ne_nil m hm (List.suffix_nil.mp hsuf)
  have hall : ∀ chunks : List (List Char), chunks.flatten = s → runScanner chunks = [s] := by
    intro chunks hc
    unfold runScanner
    exact scanGo_complete h1 h2 chunks [] (by simpa using hc)
      (fun h => hsne h.symm)
  intro chunks hc
  have hone : runScanner [s] = [s] := hall [s] (by simp)
  rw [hall chunks hc, hone]
  exact ⟨rfl, rfl⟩

theorem c10_chunking_independent_witness :
    runScanner [mTC.take 5, mTC.drop 5] = runScanner [mTC] ∧
    runScanner [mTC.take 5, mTC.drop 5] = [mTC] :=
  c10_chunking_independent mTC (by decide) (by decide)
    [mTC.take 5, mTC.drop 5] (by decide)

end Emu2Mqtt

